import Mathlib

/-!
Shallow embedding of the core pipeline logic of `pdf2pdfocr.py`
(class `Pdf2PdfOcr`), together with theorems checking the
natural-language specification against the code.

Each definition is translated directly from the Python source:
* `calculate_ranges` embeds `Pdf2PdfOcr.calculate_ranges`
* `join_ocred_pdf` embeds `Pdf2PdfOcr.join_ocred_pdf`
* `build_final_output` / `pipeline_tail` embed `Pdf2PdfOcr.build_final_output`
  and the call to `edit_producer` that follows it in `Pdf2PdfOcr.ocr`
* `convert_params_of` embeds the preset selection in `Pdf2PdfOcr.rebuild_and_merge`
* `edit_producer` embeds `Pdf2PdfOcr.edit_producer`
-/

namespace PdfOcr

/-- Ceiling division on naturals: models Python's `math.ceil(a / b)` for `b ≥ 1`
(as used in `calculate_ranges`). -/
def ceil_div (a b : Nat) : Nat := (a + b - 1) / b

/-- Embeds `Pdf2PdfOcr.calculate_ranges` for a known page count
(`input_file_number_of_pages = pages`, `cpu_to_use = cpu_to_use`).

Python:
```
range_size = math.ceil(pages / cpu_to_use)
number_of_ranges = math.ceil(pages / range_size)
result = []
for i in range(0, number_of_ranges):
    range_start = (range_size * i) + 1
    range_end = (range_size * i) + range_size
    if range_end > pages: range_end = pages
    result.append((range_start, range_end))
check_pages = 0
for created_range in result:
    check_pages += (created_range[1] - created_range[0]) + 1
if check_pages != pages: raise ArithmeticError(...)
return result
```
The raised `ArithmeticError` is modelled by `Except.error`; the subtraction in
the check loop is done over `Int`, as Python integers are signed.
`ranges_list r P n` is the list built by the `for i in range(0, number_of_ranges)`
loop with `range_size = r` and `pages = P`. -/
def ranges_list (r P n : Nat) : List (Nat × Nat) :=
  (List.range n).map (fun i => (r * i + 1, if r * i + r > P then P else r * i + r))

/-- The rest of `Pdf2PdfOcr.calculate_ranges`: the `check_pages` loop and the
final consistency check. -/
def calculate_ranges (pages cpu_to_use : Nat) : Except String (List (Nat × Nat)) :=
  let range_size := ceil_div pages cpu_to_use
  let number_of_ranges := ceil_div pages range_size
  let result := ranges_list range_size pages number_of_ranges
  let check_pages : Int := (result.map (fun r => (r.2 : Int) - (r.1 : Int) + 1)).sum
  if check_pages ≠ (pages : Int) then
    Except.error "Please check calculate_ranges function, something is wrong..."
  else
    Except.ok result

/-! Arithmetic facts about `ceil_div`. -/

theorem ceil_div_pos (a b : Nat) (ha : 1 ≤ a) (hb : 1 ≤ b) : 1 ≤ ceil_div a b := by
  have h : b ≤ a + b - 1 := by omega
  exact Nat.div_pos h hb

theorem le_ceil_div_mul (a b : Nat) (ha : 1 ≤ a) (hb : 1 ≤ b) : a ≤ ceil_div a b * b := by
  have hdm := Nat.div_add_mod (a + b - 1) b
  have hm : (a + b - 1) % b < b := Nat.mod_lt _ (by omega)
  unfold ceil_div
  rw [Nat.mul_comm]
  generalize hx : b * ((a + b - 1) / b) = x at hdm
  omega

theorem ceil_div_mul_pred_lt (a b : Nat) (ha : 1 ≤ a) (hb : 1 ≤ b) :
    (ceil_div a b - 1) * b < a := by
  have hq : ceil_div a b * b ≤ a + b - 1 := by
    unfold ceil_div
    exact Nat.div_mul_le_self _ _
  have hpos := ceil_div_pos a b ha hb
  have hsub : (ceil_div a b - 1) * b = ceil_div a b * b - b := by
    rw [Nat.sub_mul, Nat.one_mul]
  generalize hx : ceil_div a b * b = x at hq hsub
  omega

theorem ceil_div_le_of_le_mul (a b c : Nat) (hb : 1 ≤ b) (h : a ≤ c * b) :
    ceil_div a b ≤ c := by
  have hlt : a + b - 1 < (c + 1) * b := by
    rw [Nat.add_one_mul]
    generalize hx : c * b = x at h
    omega
  have := (Nat.div_lt_iff_lt_mul (by omega : 0 < b)).mpr hlt
  unfold ceil_div
  omega

/-- The per-range length summand of the `check_pages` loop, as an `Int`. -/
def range_len (r P i : Nat) : Int :=
  ((if r * i + r > P then P else r * i + r : Nat) : Int) - ((r * i + 1 : Nat) : Int) + 1

theorem sum_range_len (r P : Nat) (_hr : 1 ≤ r) :
    ∀ k : Nat, (∀ i, i < k → r * i < P) →
      ((List.range k).map (range_len r P)).sum = ((min (r * k) P : Nat) : Int) := by
  intro k
  induction k with
  | zero => intro _; simp
  | succ m ih =>
    intro hk
    have hm : ((List.range m).map (range_len r P)).sum = ((min (r * m) P : Nat) : Int) :=
      ih (fun i hi => hk i (Nat.lt_succ_of_lt hi))
    have hlt : r * m < P := hk m (Nat.lt_succ_self m)
    have hminm : min (r * m) P = r * m := by omega
    rw [List.range_succ, List.map_append, List.sum_append, hm, hminm]
    simp only [List.map_cons, List.map_nil, List.sum_cons, List.sum_nil]
    unfold range_len
    rw [Nat.mul_succ]
    split
    case isTrue h =>
      have hmn : min (r * m + r) P = P := by omega
      rw [hmn]
      push_cast
      omega
    case isFalse h =>
      have hmn : min (r * m + r) P = r * m + r := by omega
      rw [hmn]
      push_cast
      omega

theorem ranges_list_head (r P m : Nat) :
    (ranges_list r P (m + 1)).head? = some (1, if r > P then P else r) := by
  unfold ranges_list
  rw [List.range_succ_eq_map]
  simp

theorem ranges_list_getLast (r P m : Nat) :
    (ranges_list r P (m + 1)).getLast? =
      some (r * m + 1, if r * m + r > P then P else r * m + r) := by
  unfold ranges_list
  rw [List.range_succ, List.map_append]
  simp

theorem ranges_list_check_sum (r P n : Nat) (hr : 1 ≤ r)
    (hk : ∀ i, i < n → r * i < P) (hPn : P ≤ r * n) :
    ((ranges_list r P n).map (fun q => (q.2 : Int) - (q.1 : Int) + 1)).sum = (P : Int) := by
  unfold ranges_list
  rw [List.map_map]
  have hcong : ((List.range n).map
      ((fun q : Nat × Nat => (q.2 : Int) - (q.1 : Int) + 1) ∘
        (fun i => (r * i + 1, if r * i + r > P then P else r * i + r)))) =
      (List.range n).map (range_len r P) := by
    apply List.map_congr_left
    intro i _
    simp only [Function.comp]
    unfold range_len
    split <;> push_cast <;> omega
  rw [hcong, sum_range_len r P hr n hk]
  have hmn : min (r * n) P = P := by omega
  rw [hmn]

theorem ranges_list_length (r P n : Nat) : (ranges_list r P n).length = n := by
  unfold ranges_list
  simp

theorem ranges_list_get (r P n : Nat) (i : Nat) (h : i < (ranges_list r P n).length) :
    (ranges_list r P n).get ⟨i, h⟩ =
      (r * i + 1, if r * i + r > P then P else r * i + r) := by
  unfold ranges_list at h ⊢
  simp

/-- Facts about `range_size` and `number_of_ranges` inside `calculate_ranges`:
every range start index `r * i` stays below `P`, and `r * n` covers `P`. -/
theorem ranges_index_lt (P W : Nat) (hP : 1 ≤ P) (hW : 1 ≤ W) :
    ∀ i, i < ceil_div P (ceil_div P W) → ceil_div P W * i < P := by
  intro i hi
  have hr : 1 ≤ ceil_div P W := ceil_div_pos P W hP hW
  have hpred : (ceil_div P (ceil_div P W) - 1) * ceil_div P W < P :=
    ceil_div_mul_pred_lt P (ceil_div P W) hP hr
  have hmono : ceil_div P W * i ≤ ceil_div P W * (ceil_div P (ceil_div P W) - 1) :=
    Nat.mul_le_mul_left _ (by omega)
  calc ceil_div P W * i ≤ ceil_div P W * (ceil_div P (ceil_div P W) - 1) := hmono
    _ = (ceil_div P (ceil_div P W) - 1) * ceil_div P W := Nat.mul_comm _ _
    _ < P := hpred

theorem ranges_cover (P W : Nat) (hP : 1 ≤ P) (hW : 1 ≤ W) :
    P ≤ ceil_div P W * ceil_div P (ceil_div P W) := by
  have hr : 1 ≤ ceil_div P W := ceil_div_pos P W hP hW
  have h := le_ceil_div_mul P (ceil_div P W) hP hr
  rw [Nat.mul_comm] at h
  exact h

theorem calculate_ranges_eq (P W : Nat) (hP : 1 ≤ P) (hW : 1 ≤ W) :
    calculate_ranges P W =
      Except.ok (ranges_list (ceil_div P W) P (ceil_div P (ceil_div P W))) := by
  have hr : 1 ≤ ceil_div P W := ceil_div_pos P W hP hW
  have hcheck := ranges_list_check_sum (ceil_div P W) P (ceil_div P (ceil_div P W)) hr
    (ranges_index_lt P W hP hW)
    (by have := ranges_cover P W hP hW; omega)
  simp only [calculate_ranges]
  rw [if_neg]
  intro hcon
  exact hcon hcheck

/-- C1: for every known page count `P ≥ 1` and worker budget `W ≥ 1`,
`calculate_ranges` returns (does not raise) a list of contiguous,
non-overlapping, 1-indexed inclusive ranges that starts at 1, ends at `P`,
and whose lengths sum to exactly `P`; and whenever it returns at all, the
summed lengths equal `P` (the internal-consistency check raises otherwise). -/
theorem calculate_ranges_partition (P W : Nat) (hP : 1 ≤ P) (hW : 1 ≤ W) :
    ∃ rs : List (Nat × Nat),
      calculate_ranges P W = Except.ok rs ∧
      (∃ e, rs.head? = some (1, e)) ∧
      (∃ s, rs.getLast? = some (s, P)) ∧
      (∀ i : Nat, ∀ h : i + 1 < rs.length,
        (rs.get ⟨i + 1, h⟩).1 = (rs.get ⟨i, Nat.lt_of_succ_lt h⟩).2 + 1) ∧
      (∀ pr ∈ rs, 1 ≤ pr.1 ∧ pr.1 ≤ pr.2 ∧ pr.2 ≤ P) ∧
      ((rs.map (fun q => (q.2 : Int) - (q.1 : Int) + 1)).sum = (P : Int)) ∧
      (∀ rs', calculate_ranges P W = Except.ok rs' →
        (rs'.map (fun q => (q.2 : Int) - (q.1 : Int) + 1)).sum = (P : Int)) := by
  have hr : 1 ≤ ceil_div P W := ceil_div_pos P W hP hW
  have hn : 1 ≤ ceil_div P (ceil_div P W) := ceil_div_pos P (ceil_div P W) hP hr
  have heq := calculate_ranges_eq P W hP hW
  have hidx := ranges_index_lt P W hP hW
  have hcov := ranges_cover P W hP hW
  refine ⟨ranges_list (ceil_div P W) P (ceil_div P (ceil_div P W)), heq, ?_, ?_, ?_, ?_, ?_, ?_⟩
  · obtain ⟨m, hm⟩ : ∃ m, ceil_div P (ceil_div P W) = m + 1 := ⟨_, (Nat.succ_pred_eq_of_pos hn).symm⟩
    rw [hm, ranges_list_head]
    exact ⟨_, rfl⟩
  · obtain ⟨m, hm⟩ : ∃ m, ceil_div P (ceil_div P W) = m + 1 := ⟨_, (Nat.succ_pred_eq_of_pos hn).symm⟩
    rw [hm, ranges_list_getLast]
    refine ⟨ceil_div P W * m + 1, ?_⟩
    have hend : (if ceil_div P W * m + ceil_div P W > P then P
        else ceil_div P W * m + ceil_div P W) = P := by
      have h1 : P ≤ ceil_div P W * (m + 1) := by rw [← hm]; exact hcov
      rw [Nat.mul_succ] at h1
      split <;> omega
    rw [hend]
  · intro i h
    rw [ranges_list_get, ranges_list_get]
    have hlen : (ranges_list (ceil_div P W) P (ceil_div P (ceil_div P W))).length =
        ceil_div P (ceil_div P W) := ranges_list_length _ _ _
    have hi1 : i + 1 < ceil_div P (ceil_div P W) := by rw [← hlen]; exact h
    have hlt : ceil_div P W * (i + 1) < P := hidx (i + 1) hi1
    rw [Nat.mul_succ] at hlt
    simp only
    rw [if_neg (by omega)]
    rw [Nat.mul_succ]
  · intro pr hpr
    unfold ranges_list at hpr
    rw [List.mem_map] at hpr
    obtain ⟨i, hi, hfi⟩ := hpr
    rw [List.mem_range] at hi
    have hlt : ceil_div P W * i < P := hidx i hi
    subst hfi
    refine ⟨by omega, ?_, ?_⟩ <;> simp only <;> split <;> omega
  · exact ranges_list_check_sum (ceil_div P W) P (ceil_div P (ceil_div P W)) hr hidx
      (by have := hcov; omega)
  · intro rs' h'
    rw [heq] at h'
    injection h' with h''
    subst h''
    exact ranges_list_check_sum (ceil_div P W) P (ceil_div P (ceil_div P W)) hr hidx
      (by have := hcov; omega)

/-- Witness for C1, at `P = 10`, `W = 4`. -/
theorem calculate_ranges_partition_witness :
    ∃ rs : List (Nat × Nat),
      calculate_ranges 10 4 = Except.ok rs ∧
      (∃ e, rs.head? = some (1, e)) ∧
      (∃ s, rs.getLast? = some (s, 10)) ∧
      (∀ i : Nat, ∀ h : i + 1 < rs.length,
        (rs.get ⟨i + 1, h⟩).1 = (rs.get ⟨i, Nat.lt_of_succ_lt h⟩).2 + 1) ∧
      (∀ pr ∈ rs, 1 ≤ pr.1 ∧ pr.1 ≤ pr.2 ∧ pr.2 ≤ 10) ∧
      ((rs.map (fun q => (q.2 : Int) - (q.1 : Int) + 1)).sum = (10 : Int)) ∧
      (∀ rs', calculate_ranges 10 4 = Except.ok rs' →
        (rs'.map (fun q => (q.2 : Int) - (q.1 : Int) + 1)).sum = (10 : Int)) :=
  calculate_ranges_partition 10 4 (by decide) (by decide)

/-- C2: for every known page count `P ≥ 1` and worker budget `W ≥ 1`,
`calculate_ranges` returns exactly `ceil(P / ceil(P / W))` ranges, which is
at most `W` ranges; in particular for `P = 10`, `W = 4` it returns the four
ranges `(1,3), (4,6), (7,9), (10,10)`, of sizes `3, 3, 3, 1`. -/
theorem calculate_ranges_bound (P W : Nat) (hP : 1 ≤ P) (hW : 1 ≤ W) :
    ∃ rs : List (Nat × Nat),
      calculate_ranges P W = Except.ok rs ∧
      rs.length = ceil_div P (ceil_div P W) ∧
      rs.length ≤ W ∧
      calculate_ranges 10 4 = Except.ok [(1, 3), (4, 6), (7, 9), (10, 10)] ∧
      ([(1, 3), (4, 6), (7, 9), (10, 10)] : List (Nat × Nat)).map
        (fun q => q.2 - q.1 + 1) = [3, 3, 3, 1] := by
  have hr : 1 ≤ ceil_div P W := ceil_div_pos P W hP hW
  have heq := calculate_ranges_eq P W hP hW
  refine ⟨ranges_list (ceil_div P W) P (ceil_div P (ceil_div P W)), heq,
    ranges_list_length _ _ _, ?_, by rfl, by decide⟩
  rw [ranges_list_length]
  apply ceil_div_le_of_le_mul P (ceil_div P W) W hr
  have h := le_ceil_div_mul P W hP hW
  rw [Nat.mul_comm] at h
  exact h

/-- Witness for C2, at `P = 10`, `W = 4`. -/
theorem calculate_ranges_bound_witness :
    ∃ rs : List (Nat × Nat),
      calculate_ranges 10 4 = Except.ok rs ∧
      rs.length = ceil_div 10 (ceil_div 10 4) ∧
      rs.length ≤ 4 ∧
      calculate_ranges 10 4 = Except.ok [(1, 3), (4, 6), (7, 9), (10, 10)] ∧
      ([(1, 3), (4, 6), (7, 9), (10, 10)] : List (Nat × Nat)).map
        (fun q => q.2 - q.1 + 1) = [3, 3, 3, 1] :=
  calculate_ranges_bound 10 4 (by decide) (by decide)

/-! ## Overlay assembly: `Pdf2PdfOcr.join_ocred_pdf`

Python:
```
text_pdf_file_list = sorted(glob.glob(self.tmp_dir + "{0}*.{1}".format(self.prefix, "pdf")))
self.debug("We have {0} ocr'ed files".format(len(text_pdf_file_list)))
if len(text_pdf_file_list) > 1:
    pdf_merger = PyPDF2.PdfFileMerger()
    for text_pdf_file in text_pdf_file_list:
        pdf_merger.append(PyPDF2.PdfFileReader(text_pdf_file, strict=False))
    pdf_merger.write(self.tmp_dir + self.prefix + "-ocr.pdf")
else:
    if len(text_pdf_file_list) == 1:
        shutil.copyfile(text_pdf_file_list[0], self.tmp_dir + self.prefix + "-ocr.pdf")
    else:
        eprint("No PDF files generated after OCR. This is not expected. Aborting.")
        self.cleanup()
        exit(1)
```
An overlay file is modelled by its filename and the list of pages it holds
(page contents abstracted by identifiers). `glob.glob` returns the existing
files in unspecified order; `sorted` orders them by filename. -/

/-- A per-page OCR overlay artifact present in the temp directory. -/
structure Overlay where
  name : String
  pages : List Nat
deriving DecidableEq

/-- Outcome of `join_ocred_pdf`: fatal abort via `exit(1)`, a direct
`shutil.copyfile` of the single overlay, or a `PdfFileMerger` concatenation. -/
inductive JoinResult where
  | fatal (exitCode : Nat)
  | copied (pages : List Nat)
  | merged (pages : List Nat)
deriving DecidableEq

/-- Filename comparison used by Python's `sorted` on the glob result:
lexicographic order on the characters of the filename (stated on `toList`
so that it is kernel-computable; `overlay_le_iff` shows it agrees with the
order on `String`). -/
def overlay_le (a b : Overlay) : Prop := a.name.toList ≤ b.name.toList

theorem overlay_le_iff (a b : Overlay) : overlay_le a b ↔ a.name ≤ b.name := by
  unfold overlay_le
  exact (String.le_iff_toList_le).symm

instance : DecidableRel overlay_le := fun a b =>
  (inferInstance : Decidable (a.name.toList ≤ b.name.toList))

instance : IsTotal Overlay overlay_le := ⟨fun a b => le_total a.name.toList b.name.toList⟩

instance : IsTrans Overlay overlay_le := ⟨fun _ _ _ h1 h2 => le_trans h1 h2⟩

/-- `sorted(glob.glob(...))`: the overlay files ordered by filename. -/
def sort_overlays (files : List Overlay) : List Overlay :=
  List.insertionSort overlay_le files

/-- Embeds `Pdf2PdfOcr.join_ocred_pdf`, taking the (unordered) set of overlay
files that exist in the temp directory. -/
def join_ocred_pdf (files : List Overlay) : JoinResult :=
  match sort_overlays files with
  | [] => JoinResult.fatal 1
  | [f] => JoinResult.copied f.pages
  | fs => JoinResult.merged ((fs.map Overlay.pages).flatten)

theorem sort_overlays_perm (l : List Overlay) : (sort_overlays l).Perm l :=
  List.perm_insertionSort _ _

theorem sort_overlays_sorted (l : List Overlay) :
    List.Sorted overlay_le (sort_overlays l) :=
  List.sorted_insertionSort _ _

/-- Strict filename order on overlays. -/
def overlay_lt (a b : Overlay) : Prop := a.name.toList < b.name.toList

instance : IsAntisymm Overlay overlay_lt :=
  ⟨fun a _b h1 h2 => absurd (lt_trans h1 h2) (lt_irrefl a.name.toList)⟩

theorem sorted_strict_of_nodup (l : List Overlay)
    (hs : List.Sorted overlay_le l) (hn : (l.map Overlay.name).Nodup) :
    List.Sorted overlay_lt l := by
  have hn' : l.Pairwise (fun a b => a.name ≠ b.name) := (List.pairwise_map).mp hn
  have hand := List.Pairwise.and hs hn'
  exact hand.imp (fun h => lt_of_le_of_ne h.1 (fun hc => h.2 (String.toList_inj.mp hc)))

theorem sort_overlays_eq_of_perm (l l' : List Overlay)
    (hp : l.Perm l') (hn : (l.map Overlay.name).Nodup) :
    sort_overlays l = sort_overlays l' := by
  have hn' : (l'.map Overlay.name).Nodup := ((hp.map Overlay.name).nodup_iff).mp hn
  have hperm : (sort_overlays l).Perm (sort_overlays l') :=
    (sort_overlays_perm l).trans (hp.trans (sort_overlays_perm l').symm)
  have hs1 : List.Sorted overlay_lt (sort_overlays l) :=
    sorted_strict_of_nodup _ (sort_overlays_sorted l)
      (((sort_overlays_perm l).map Overlay.name).nodup_iff.mpr hn)
  have hs2 : List.Sorted overlay_lt (sort_overlays l') :=
    sorted_strict_of_nodup _ (sort_overlays_sorted l')
      (((sort_overlays_perm l').map Overlay.name).nodup_iff.mpr hn')
  exact List.eq_of_perm_of_sorted hperm hs1 hs2

/-- C3: with zero per-page overlay documents present, `join_ocred_pdf` aborts
fatally via `exit(1)` instead of producing an empty overlay document. -/
theorem join_ocred_pdf_empty_fatal : join_ocred_pdf [] = JoinResult.fatal 1 := rfl

/-- C6: for a non-empty set of per-page overlay documents with distinct
filenames, `join_ocred_pdf` concatenates them in lexicographically sorted
filename order: its result is invariant under any permutation of the glob
order, the assembly order is `≤`-sorted on filenames, a single overlay is
used directly as a copy (no merge), and multiple overlays are merged as the
concatenation of their pages in sorted filename order. -/
theorem join_ocred_pdf_sorted_order (l l' : List Overlay)
    (hp : l.Perm l') (hn : (l.map Overlay.name).Nodup) (_hne : l ≠ []) :
    join_ocred_pdf l = join_ocred_pdf l' ∧
    ((sort_overlays l).map Overlay.name).Sorted (· ≤ ·) ∧
    (∀ f, l = [f] → join_ocred_pdf l = JoinResult.copied f.pages) ∧
    (1 < l.length →
      join_ocred_pdf l = JoinResult.merged (((sort_overlays l).map Overlay.pages).flatten)) := by
  refine ⟨?_, ?_, ?_, ?_⟩
  · unfold join_ocred_pdf
    rw [sort_overlays_eq_of_perm l l' hp hn]
  · exact List.Pairwise.map _ (fun a b h => (overlay_le_iff a b).mp h) (sort_overlays_sorted l)
  · intro f hf
    subst hf
    rfl
  · intro hlen
    have hlen' : (sort_overlays l).length = l.length := (sort_overlays_perm l).length_eq
    rcases hsort : sort_overlays l with _ | ⟨a, rest⟩
    · rw [hsort] at hlen'
      simp at hlen'
      omega
    rcases rest with _ | ⟨b, rest2⟩
    · rw [hsort] at hlen'
      simp at hlen'
      omega
    · unfold join_ocred_pdf
      rw [hsort]

/-- Witness for C6, at the overlay filenames of the spec's example
(`pfx-003, pfx-001, pfx-002`), compared against the already-sorted order:
the assembled page order is `001, 002, 003`. -/
theorem join_ocred_pdf_sorted_order_witness :
    (join_ocred_pdf [⟨"pfx-003", [3]⟩, ⟨"pfx-001", [1]⟩, ⟨"pfx-002", [2]⟩] =
        join_ocred_pdf [⟨"pfx-001", [1]⟩, ⟨"pfx-002", [2]⟩, ⟨"pfx-003", [3]⟩] ∧
      ((sort_overlays [⟨"pfx-003", [3]⟩, ⟨"pfx-001", [1]⟩, ⟨"pfx-002", [2]⟩]).map
          Overlay.name).Sorted (· ≤ ·) ∧
      (∀ f, ([⟨"pfx-003", [3]⟩, ⟨"pfx-001", [1]⟩, ⟨"pfx-002", [2]⟩] : List Overlay) = [f] →
        join_ocred_pdf [⟨"pfx-003", [3]⟩, ⟨"pfx-001", [1]⟩, ⟨"pfx-002", [2]⟩] =
          JoinResult.copied f.pages) ∧
      (1 < ([⟨"pfx-003", [3]⟩, ⟨"pfx-001", [1]⟩, ⟨"pfx-002", [2]⟩] : List Overlay).length →
        join_ocred_pdf [⟨"pfx-003", [3]⟩, ⟨"pfx-001", [1]⟩, ⟨"pfx-002", [2]⟩] =
          JoinResult.merged
            (((sort_overlays [⟨"pfx-003", [3]⟩, ⟨"pfx-001", [1]⟩, ⟨"pfx-002", [2]⟩]).map
              Overlay.pages).flatten))) ∧
    join_ocred_pdf [⟨"pfx-003", [3]⟩, ⟨"pfx-001", [1]⟩, ⟨"pfx-002", [2]⟩] =
      JoinResult.merged [1, 2, 3] :=
  ⟨join_ocred_pdf_sorted_order
      [⟨"pfx-003", [3]⟩, ⟨"pfx-001", [1]⟩, ⟨"pfx-002", [2]⟩]
      [⟨"pfx-001", [1]⟩, ⟨"pfx-002", [2]⟩, ⟨"pfx-003", [3]⟩]
      (by decide) (by decide) (by decide),
    by decide⟩

/-- Does `join_ocred_pdf` abort (`exit(1)`)? -/
def is_fatal : JoinResult → Bool
  | JoinResult.fatal _ => true
  | _ => false

/-- The property asserted by C7: whenever some expected overlay filename is
absent from the files that exist (OCR failed for that page), the assembler
reports the hole fatally rather than silently assembling only the overlays
that exist. -/
def claim_missing_overlay_reported (expected : List String) (files : List Overlay) : Prop :=
  (∃ nm ∈ expected, nm ∉ files.map Overlay.name) →
    is_fatal (join_ocred_pdf files) = true

/-- C7 counterexample: three pages were expected (`pfx-001 … pfx-003`) but
OCR produced overlays only for pages 001 and 003; `join_ocred_pdf` silently
merges the two existing overlays instead of reporting the missing page. -/
theorem join_ocred_pdf_missing_not_reported :
    ¬ claim_missing_overlay_reported ["pfx-001.pdf", "pfx-002.pdf", "pfx-003.pdf"]
        [⟨"pfx-001.pdf", [1]⟩, ⟨"pfx-003.pdf", [3]⟩] ∧
      join_ocred_pdf [⟨"pfx-001.pdf", [1]⟩, ⟨"pfx-003.pdf", [3]⟩] =
        JoinResult.merged [1, 3] := by
  unfold claim_missing_overlay_reported
  decide

/-- C7 amended: `join_ocred_pdf` does not detect missing per-page overlays.
Whenever at least one overlay exists it proceeds without any error, copying a
single overlay directly or merging the existing overlays in sorted filename
order; only the zero-overlay case aborts. -/
theorem join_ocred_pdf_silently_skips (files : List Overlay) (hne : files ≠ []) :
    is_fatal (join_ocred_pdf files) = false ∧
    ((∃ f, sort_overlays files = [f] ∧ join_ocred_pdf files = JoinResult.copied f.pages) ∨
      join_ocred_pdf files =
        JoinResult.merged (((sort_overlays files).map Overlay.pages).flatten)) := by
  have hlen' : (sort_overlays files).length = files.length := (sort_overlays_perm files).length_eq
  have hpos : 0 < files.length := List.length_pos.mpr hne
  rcases hsort : sort_overlays files with _ | ⟨a, rest⟩
  · rw [hsort] at hlen'
    simp at hlen'
    omega
  rcases rest with _ | ⟨b, rest2⟩
  · refine ⟨?_, Or.inl ⟨a, rfl, ?_⟩⟩
    · unfold join_ocred_pdf
      rw [hsort]
      rfl
    · unfold join_ocred_pdf
      rw [hsort]
  · refine ⟨?_, Or.inr ?_⟩
    · unfold join_ocred_pdf
      rw [hsort]
      rfl
    · unfold join_ocred_pdf
      rw [hsort]

/-- Witness for the amended C7, at the two-of-three-overlays input. -/
theorem join_ocred_pdf_silently_skips_witness :
    is_fatal (join_ocred_pdf [⟨"pfx-001.pdf", [1]⟩, ⟨"pfx-003.pdf", [3]⟩]) = false ∧
    ((∃ f, sort_overlays [⟨"pfx-001.pdf", [1]⟩, ⟨"pfx-003.pdf", [3]⟩] = [f] ∧
        join_ocred_pdf [⟨"pfx-001.pdf", [1]⟩, ⟨"pfx-003.pdf", [3]⟩] =
          JoinResult.copied f.pages) ∨
      join_ocred_pdf [⟨"pfx-001.pdf", [1]⟩, ⟨"pfx-003.pdf", [3]⟩] =
        JoinResult.merged
          (((sort_overlays [⟨"pfx-001.pdf", [1]⟩, ⟨"pfx-003.pdf", [3]⟩]).map
            Overlay.pages).flatten)) :=
  join_ocred_pdf_silently_skips [⟨"pfx-001.pdf", [1]⟩, ⟨"pfx-003.pdf", [3]⟩] (by decide)

/-! ## Final merge: `Pdf2PdfOcr.build_final_output`

Python:
```
rebuild_pdf_from_images = False
if self.input_file_is_encrypted or self.input_file_type != "application/pdf" or self.use_deskew_mode:
    rebuild_pdf_from_images = True
if (not rebuild_pdf_from_images) and (not self.force_rebuild_mode):
    if self.use_pdftk:
        ... pdftk multibackground merge ...
    else:
        ... pdf2pdfocr_multibackground.py merge ...
        if not os.path.isfile(self.tmp_dir + self.prefix + "-OUTPUT.pdf"):
            self.try_repair_input_and_merge()
else:
    self.rebuild_and_merge()
if not os.path.isfile(self.tmp_dir + self.prefix + "-OUTPUT.pdf"):
    eprint("Output file could not be created :( Exiting with error code.")
    self.cleanup()
    exit(1)
```
and in `Pdf2PdfOcr.ocr`, `self.edit_producer()` (which writes the final output
path) runs only after `build_final_output` returns without exiting.

Whether each external merge attempt leaves the candidate `-OUTPUT.pdf` file
behind is an environment fact, captured by the `…Creates` fields. -/

/-- Run configuration plus the outcome of each possible external merge
attempt (whether it leaves the candidate `-OUTPUT.pdf` file behind). -/
structure MergeEnv where
  input_file_is_encrypted : Bool
  input_file_type : String
  use_deskew_mode : Bool
  force_rebuild_mode : Bool
  use_pdftk : Bool
  pdftkCreates : Bool
  directCreates : Bool
  repairCreates : Bool
  rebuildCreates : Bool
deriving DecidableEq

/-- Externally observable steps of the final-merge stage. -/
inductive Action where
  | pdftkMerge
  | directMerge
  | repairRetry
  | rebuildMerge
  | exitErr
  | writeFinal
deriving DecidableEq

/-- The `rebuild_pdf_from_images` flag computed at the top of
`build_final_output`. -/
def rebuild_from_images (e : MergeEnv) : Bool :=
  e.input_file_is_encrypted || (e.input_file_type != "application/pdf") || e.use_deskew_mode

/-- The branch of `build_final_output` that runs one of the merge strategies:
returns the actions performed and whether the candidate file exists after. -/
def merge_actions (e : MergeEnv) : List Action × Bool :=
  if !(rebuild_from_images e) && !e.force_rebuild_mode then
    if e.use_pdftk then
      ([Action.pdftkMerge], e.pdftkCreates)
    else if e.directCreates then
      ([Action.directMerge], true)
    else
      ([Action.directMerge, Action.repairRetry], e.repairCreates)
  else
    ([Action.rebuildMerge], e.rebuildCreates)

/-- Embeds `Pdf2PdfOcr.build_final_output`: the merge branch followed by the
final candidate-file check; `some 1` is `exit(1)`. -/
def build_final_output (e : MergeEnv) : List Action × Option Nat :=
  let s := merge_actions e
  if s.2 then (s.1, none) else (s.1 ++ [Action.exitErr], some 1)

/-- The tail of `Pdf2PdfOcr.ocr`: `build_final_output` and then, only when it
did not exit, `edit_producer` writing the final output path. -/
def pipeline_tail (e : MergeEnv) : List Action × Option Nat :=
  match build_final_output e with
  | (acts, none) => (acts ++ [Action.writeFinal], none)
  | (acts, some c) => (acts, some c)

theorem mem_rebuild_merge_actions (e : MergeEnv) :
    Action.rebuildMerge ∈ (merge_actions e).1 ↔
      (rebuild_from_images e || e.force_rebuild_mode) = true := by
  unfold merge_actions
  cases hrb : rebuild_from_images e <;> cases hfr : e.force_rebuild_mode <;>
    cases hpk : e.use_pdftk <;> cases hdc : e.directCreates <;>
    simp [hrb, hfr, hpk, hdc]

/-- C5: the rebuild-from-images path is taken iff the input is encrypted, or
its mime type is not `application/pdf`, or deskew mode was applied, or the
force-rebuild flag is set (hence for an encrypted PDF it is taken even with
deskew and force-rebuild both off). -/
theorem build_final_output_rebuild_iff (e : MergeEnv) :
    Action.rebuildMerge ∈ (build_final_output e).1 ↔
      (e.input_file_is_encrypted = true ∨ e.input_file_type ≠ "application/pdf" ∨
        e.use_deskew_mode = true ∨ e.force_rebuild_mode = true) := by
  have h1 : Action.rebuildMerge ∈ (build_final_output e).1 ↔
      Action.rebuildMerge ∈ (merge_actions e).1 := by
    unfold build_final_output
    cases h : (merge_actions e).2 <;> simp [h]
  rw [h1, mem_rebuild_merge_actions]
  unfold rebuild_from_images
  cases henc : e.input_file_is_encrypted <;> cases hdsk : e.use_deskew_mode <;>
    cases hfr : e.force_rebuild_mode <;>
    by_cases hm : e.input_file_type = "application/pdf" <;>
    simp [henc, hdsk, hfr, hm, bne_iff_ne]

/-- "The direct merge failed": the non-rebuild merge branch ran and the
candidate `-OUTPUT.pdf` file is absent after the merge attempt. -/
def direct_merge_failed (e : MergeEnv) : Prop :=
  (rebuild_from_images e || e.force_rebuild_mode) = false ∧
  (if e.use_pdftk then e.pdftkCreates else e.directCreates) = false

/-- The property asserted by C4 for one run: if the direct merge fails, the
repair-retry runs exactly once, and if the retry also leaves the candidate
absent the pipeline exits non-zero without writing the final output path. -/
def claim_repair_once (e : MergeEnv) : Prop :=
  direct_merge_failed e →
    (pipeline_tail e).1.count Action.repairRetry = 1 ∧
    (e.repairCreates = false →
      (pipeline_tail e).2 = some 1 ∧ Action.writeFinal ∉ (pipeline_tail e).1)

/-- C4 counterexample: when the merge is delegated to pdftk (`-p` flag) and
pdftk leaves no candidate file, the code skips the repair-retry entirely
(zero invocations, not one) and exits: the trace is just the pdftk merge
followed by `exit(1)`. -/
theorem build_final_output_pdftk_skips_repair :
    ¬ claim_repair_once
        { input_file_is_encrypted := false, input_file_type := "application/pdf",
          use_deskew_mode := false, force_rebuild_mode := false, use_pdftk := true,
          pdftkCreates := false, directCreates := false, repairCreates := false,
          rebuildCreates := false } ∧
      pipeline_tail
          { input_file_is_encrypted := false, input_file_type := "application/pdf",
            use_deskew_mode := false, force_rebuild_mode := false, use_pdftk := true,
            pdftkCreates := false, directCreates := false, repairCreates := false,
            rebuildCreates := false } =
        ([Action.pdftkMerge, Action.exitErr], some 1) := by
  unfold claim_repair_once direct_merge_failed
  decide

/-- C4 amended: when the direct merge is performed by the built-in script
(pdftk disabled) and fails, the repair-retry is invoked exactly once, and if
the retry also leaves the candidate absent the pipeline exits non-zero and
does not write to the final output path; when pdftk performs the merge and
fails, no repair-retry runs and the pipeline exits non-zero without writing
the final output path. -/
theorem build_final_output_repair_once (e : MergeEnv)
    (hpk : e.use_pdftk = false)
    (hnr : (rebuild_from_images e || e.force_rebuild_mode) = false)
    (hdc : e.directCreates = false) :
    ((pipeline_tail e).1.count Action.repairRetry = 1 ∧
      (e.repairCreates = false →
        (pipeline_tail e).2 = some 1 ∧ Action.writeFinal ∉ (pipeline_tail e).1)) ∧
    (∀ e' : MergeEnv, e'.use_pdftk = true →
      (rebuild_from_images e' || e'.force_rebuild_mode) = false →
      e'.pdftkCreates = false →
      (pipeline_tail e').1.count Action.repairRetry = 0 ∧
      (pipeline_tail e').2 = some 1 ∧ Action.writeFinal ∉ (pipeline_tail e').1) := by
  obtain ⟨h1, h2⟩ := Bool.or_eq_false_iff.mp hnr
  have hb : merge_actions e = ([Action.directMerge, Action.repairRetry], e.repairCreates) := by
    unfold merge_actions
    rw [h1, h2, hpk, hdc]
    simp
  have hpt_t : e.repairCreates = true →
      pipeline_tail e = ([Action.directMerge, Action.repairRetry, Action.writeFinal], none) := by
    intro h
    unfold pipeline_tail build_final_output
    rw [hb, h]
    rfl
  have hpt_f : e.repairCreates = false →
      pipeline_tail e = ([Action.directMerge, Action.repairRetry, Action.exitErr], some 1) := by
    intro h
    unfold pipeline_tail build_final_output
    rw [hb, h]
    rfl
  constructor
  · constructor
    · cases hrc : e.repairCreates
      · rw [hpt_f hrc]
        decide
      · rw [hpt_t hrc]
        decide
    · intro hrc
      rw [hpt_f hrc]
      exact ⟨rfl, by decide⟩
  · intro e' hpk' hnr' hpc'
    obtain ⟨h1', h2'⟩ := Bool.or_eq_false_iff.mp hnr'
    have hb' : merge_actions e' = ([Action.pdftkMerge], e'.pdftkCreates) := by
      unfold merge_actions
      rw [h1', h2', hpk']
      simp
    have hpt' : pipeline_tail e' = ([Action.pdftkMerge, Action.exitErr], some 1) := by
      unfold pipeline_tail build_final_output
      rw [hb', hpc']
      rfl
    rw [hpt']
    exact ⟨by decide, rfl, by decide⟩

/-- Witness for the amended C4, at a run where the script merge and the
repair-retry both fail to produce the candidate file. -/
theorem build_final_output_repair_once_witness :
    (((pipeline_tail
        { input_file_is_encrypted := false, input_file_type := "application/pdf",
          use_deskew_mode := false, force_rebuild_mode := false, use_pdftk := false,
          pdftkCreates := false, directCreates := false, repairCreates := false,
          rebuildCreates := false }).1.count Action.repairRetry = 1 ∧
      ((MergeEnv.repairCreates
          { input_file_is_encrypted := false, input_file_type := "application/pdf",
            use_deskew_mode := false, force_rebuild_mode := false, use_pdftk := false,
            pdftkCreates := false, directCreates := false, repairCreates := false,
            rebuildCreates := false }) = false →
        (pipeline_tail
          { input_file_is_encrypted := false, input_file_type := "application/pdf",
            use_deskew_mode := false, force_rebuild_mode := false, use_pdftk := false,
            pdftkCreates := false, directCreates := false, repairCreates := false,
            rebuildCreates := false }).2 = some 1 ∧
        Action.writeFinal ∉
          (pipeline_tail
            { input_file_is_encrypted := false, input_file_type := "application/pdf",
              use_deskew_mode := false, force_rebuild_mode := false, use_pdftk := false,
              pdftkCreates := false, directCreates := false, repairCreates := false,
              rebuildCreates := false }).1)) ∧
    (∀ e' : MergeEnv, e'.use_pdftk = true →
      (rebuild_from_images e' || e'.force_rebuild_mode) = false →
      e'.pdftkCreates = false →
      (pipeline_tail e').1.count Action.repairRetry = 0 ∧
      (pipeline_tail e').2 = some 1 ∧ Action.writeFinal ∉ (pipeline_tail e').1)) :=
  build_final_output_repair_once
    { input_file_is_encrypted := false, input_file_type := "application/pdf",
      use_deskew_mode := false, force_rebuild_mode := false, use_pdftk := false,
      pdftkCreates := false, directCreates := false, repairCreates := false,
      rebuildCreates := false }
    (by decide) (by decide) (by decide)

/-! ## Rebuild presets: `Pdf2PdfOcr.rebuild_and_merge`

Python:
```
preset_fast = "-threshold 60% -compress Group4"
preset_best = "-colors 2 -colorspace gray -normalize -threshold 60% -compress Group4"
preset_grayscale = "-threshold 85% -morphology Dilate Diamond -compress Group4"
preset_jpeg = "-strip -interlace Plane -gaussian-blur 0.05 -quality 50% -compress JPEG"
preset_jpeg2000 = "-quality 32% -compress JPEG2000"
convert_params = ""
if self.user_convert_params == "fast": convert_params = preset_fast
elif self.user_convert_params == "best": convert_params = preset_best
elif self.user_convert_params == "grasyscale": convert_params = preset_grayscale
elif self.user_convert_params == "jpeg": convert_params = preset_jpeg
elif self.user_convert_params == "jpeg2000": convert_params = preset_jpeg2000
else: convert_params = self.user_convert_params
if convert_params == "": convert_params = preset_best
```
Note the source compares against the misspelling `"grasyscale"`, while the
program's own `-g` help text documents the selector `grayscale`. -/

def preset_fast : String := "-threshold 60% -compress Group4"

def preset_best : String :=
  "-colors 2 -colorspace gray -normalize -threshold 60% -compress Group4"

def preset_grayscale : String := "-threshold 85% -morphology Dilate Diamond -compress Group4"

def preset_jpeg : String :=
  "-strip -interlace Plane -gaussian-blur 0.05 -quality 50% -compress JPEG"

def preset_jpeg2000 : String := "-quality 32% -compress JPEG2000"

/-- The `convert_params` value `rebuild_and_merge` passes to ImageMagick, as a
function of `self.user_convert_params` (the `-g` option, default `""`). -/
def convert_params_of (user_convert_params : String) : String :=
  let convert_params :=
    if user_convert_params = "fast" then preset_fast
    else if user_convert_params = "best" then preset_best
    else if user_convert_params = "grasyscale" then preset_grayscale
    else if user_convert_params = "jpeg" then preset_jpeg
    else if user_convert_params = "jpeg2000" then preset_jpeg2000
    else user_convert_params
  if convert_params = "" then preset_best else convert_params

/-- C8: evaluation at the failing input. The documented selector `"grayscale"`
is NOT mapped to the grayscale-dilate preset: only the misspelled selector
`"grasyscale"` is, so `"grayscale"` falls through to the literal-filter branch
and is passed verbatim to ImageMagick. The remaining selectors map to their
documented presets. -/
theorem convert_params_grayscale_typo :
    convert_params_of "grayscale" = "grayscale" ∧
    convert_params_of "grayscale" ≠ preset_grayscale ∧
    convert_params_of "grasyscale" = preset_grayscale ∧
    convert_params_of "fast" = preset_fast ∧
    convert_params_of "best" = preset_best ∧
    convert_params_of "jpeg" = preset_jpeg ∧
    convert_params_of "jpeg2000" = preset_jpeg2000 ∧
    convert_params_of "-threshold 99% -compress Group4" =
      "-threshold 99% -compress Group4" := by
  refine ⟨rfl, by decide, rfl, rfl, rfl, rfl, rfl, rfl⟩

/-- C10: with no rebuild-preset selector supplied (`-g` defaults to the empty
string), `rebuild_and_merge` falls back to the bitonal best-quality preset. -/
theorem convert_params_default_best :
    convert_params_of "" =
      "-colors 2 -colorspace gray -normalize -threshold 60% -compress Group4" := rfl

/-! ## Output finalization: `Pdf2PdfOcr.edit_producer`

Python:
```
info_dict_output = dict()
our_name = "PDF2PDFOCR(github.com/LeoFCardoso/pdf2pdfocr)"
read_producer = False
producer_key = "/Producer"
if self.input_file_metadata is not None:
    for key in self.input_file_metadata:
        value = self.input_file_metadata[key]
        if key == producer_key:
            value = value + "; " + our_name
            read_producer = True
        try:
            test_conversion = PyPDF2.generic.createStringObject(value)
            info_dict_output[key] = value
        except TypeError:
            eprint("Warning: property " + key + " not copied to final PDF")
if not read_producer:
    info_dict_output[producer_key] = our_name
final_output_pdf.addMetadata(info_dict_output)
```
A metadata value is a Python text string (`str`: concatenation and
`createStringObject` both succeed), a byte string (`bytes`:
`createStringObject` succeeds, but `value + "; "` raises `TypeError`), or any
other object such as an array (`value + "; "` raises `TypeError`, and
`createStringObject` raises `TypeError`, which the `try` catches only in the
non-producer branch). The uncaught `TypeError` raised on a non-`str` producer
value (the concatenation is outside the `try`) is modelled as `Except.error`. -/

/-- A metadata value as read by PyPDF2. -/
inductive MetaVal where
  | str (s : String)
  | bytes (s : String)
  | other
deriving DecidableEq

def our_name : String := "PDF2PDFOCR(github.com/LeoFCardoso/pdf2pdfocr)"

def producer_key : String := "/Producer"

def warn_msg (k : String) : String := "Warning: property " ++ k ++ " not copied to final PDF"

/-- The loop of `edit_producer` over the remaining metadata entries, given the
current `read_producer` flag, returning the produced `info_dict_output`
entries (in insertion order) and the warnings printed, or `Except.error` for
the uncaught `TypeError` on a non-`str` producer value. -/
def edit_producer_go : List (String × MetaVal) → Bool →
    Except Unit (List (String × String) × List String)
  | [], read_producer =>
      Except.ok (if read_producer then [] else [(producer_key, our_name)], [])
  | (k, v) :: rest, read_producer =>
      if k = producer_key then
        match v with
        | MetaVal.str s =>
            (edit_producer_go rest true).map
              (fun ow => ((k, s ++ "; " ++ our_name) :: ow.1, ow.2))
        | _ => Except.error ()
      else
        match v with
        | MetaVal.str s =>
            (edit_producer_go rest read_producer).map (fun ow => ((k, s) :: ow.1, ow.2))
        | MetaVal.bytes s =>
            (edit_producer_go rest read_producer).map (fun ow => ((k, s) :: ow.1, ow.2))
        | MetaVal.other =>
            (edit_producer_go rest read_producer).map (fun ow => (ow.1, warn_msg k :: ow.2))

/-- Embeds `Pdf2PdfOcr.edit_producer`; `none` models
`input_file_metadata is None` (the loop is skipped entirely). -/
def edit_producer (metadata : Option (List (String × MetaVal))) :
    Except Unit (List (String × String) × List String) :=
  match metadata with
  | none => edit_producer_go [] false
  | some md => edit_producer_go md false

theorem lookup_cons_self (x : String) (tl : List (String × String)) :
    List.lookup producer_key ((producer_key, x) :: tl) = some x := by
  simp [List.lookup]

theorem lookup_cons_skip (k x : String) (hk : ¬k = producer_key)
    (tl : List (String × String)) :
    List.lookup producer_key ((k, x) :: tl) = List.lookup producer_key tl := by
  have hb : (producer_key == k) = false := beq_eq_false_iff_ne.mpr (Ne.symm hk)
  simp [List.lookup, hb]

/-! Step equations for `edit_producer_go`. -/

theorem go_cons_producer_str (s : String) (tl : List (String × MetaVal)) (rp : Bool) :
    edit_producer_go ((producer_key, MetaVal.str s) :: tl) rp =
      (edit_producer_go tl true).map
        (fun ow => ((producer_key, s ++ "; " ++ our_name) :: ow.1, ow.2)) := by
  simp [edit_producer_go]

theorem go_cons_producer_bytes (s : String) (tl : List (String × MetaVal)) (rp : Bool) :
    edit_producer_go ((producer_key, MetaVal.bytes s) :: tl) rp = Except.error () := by
  simp [edit_producer_go]

theorem go_cons_producer_other (tl : List (String × MetaVal)) (rp : Bool) :
    edit_producer_go ((producer_key, MetaVal.other) :: tl) rp = Except.error () := by
  simp [edit_producer_go]

theorem go_cons_skip_str (k s : String) (hk : ¬k = producer_key)
    (tl : List (String × MetaVal)) (rp : Bool) :
    edit_producer_go ((k, MetaVal.str s) :: tl) rp =
      (edit_producer_go tl rp).map (fun ow => ((k, s) :: ow.1, ow.2)) := by
  simp [edit_producer_go, hk]

theorem go_cons_skip_bytes (k s : String) (hk : ¬k = producer_key)
    (tl : List (String × MetaVal)) (rp : Bool) :
    edit_producer_go ((k, MetaVal.bytes s) :: tl) rp =
      (edit_producer_go tl rp).map (fun ow => ((k, s) :: ow.1, ow.2)) := by
  simp [edit_producer_go, hk]

theorem go_cons_skip_other (k : String) (hk : ¬k = producer_key)
    (tl : List (String × MetaVal)) (rp : Bool) :
    edit_producer_go ((k, MetaVal.other) :: tl) rp =
      (edit_producer_go tl rp).map (fun ow => (ow.1, warn_msg k :: ow.2)) := by
  simp [edit_producer_go, hk]

/-- The loop never raises when every producer-keyed value is a text string. -/
theorem edit_producer_go_ok (l : List (String × MetaVal))
    (h : ∀ v, (producer_key, v) ∈ l → ∃ s, v = MetaVal.str s) :
    ∀ rp, ∃ r, edit_producer_go l rp = Except.ok r := by
  induction l with
  | nil =>
    intro rp
    exact ⟨_, rfl⟩
  | cons hd tl ih =>
    obtain ⟨k, v⟩ := hd
    intro rp
    have htl : ∀ v, (producer_key, v) ∈ tl → ∃ s, v = MetaVal.str s :=
      fun v hv => h v (List.mem_cons_of_mem _ hv)
    by_cases hk : k = producer_key
    · subst hk
      obtain ⟨s, hs⟩ := h v (List.mem_cons_self _ _)
      subst hs
      obtain ⟨r, hr⟩ := ih htl true
      exact ⟨((producer_key, s ++ "; " ++ our_name) :: r.1, r.2),
        by rw [go_cons_producer_str, hr]; rfl⟩
    · cases v with
      | str s =>
        obtain ⟨r, hr⟩ := ih htl rp
        exact ⟨((k, s) :: r.1, r.2), by rw [go_cons_skip_str k s hk, hr]; rfl⟩
      | bytes s =>
        obtain ⟨r, hr⟩ := ih htl rp
        exact ⟨((k, s) :: r.1, r.2), by rw [go_cons_skip_bytes k s hk, hr]; rfl⟩
      | other =>
        obtain ⟨r, hr⟩ := ih htl rp
        exact ⟨(r.1, warn_msg k :: r.2), by rw [go_cons_skip_other k hk, hr]; rfl⟩

/-- If a producer entry with a text-string value is present (keys distinct),
the produced metadata holds the appended producer value. -/
theorem edit_producer_go_producer (l : List (String × MetaVal)) :
    ∀ (s : String) (rp : Bool) o w,
      (producer_key, MetaVal.str s) ∈ l → (l.map Prod.fst).Nodup →
      edit_producer_go l rp = Except.ok (o, w) →
      o.lookup producer_key = some (s ++ "; " ++ our_name) := by
  induction l with
  | nil =>
    intro s rp o w hmem _ _
    cases hmem
  | cons hd tl ih =>
    obtain ⟨k, v⟩ := hd
    intro s rp o w hmem hnodup hgo
    rw [List.map_cons, List.nodup_cons] at hnodup
    by_cases hk : k = producer_key
    · subst hk
      have hv : v = MetaVal.str s := by
        rcases List.mem_cons.mp hmem with heq | htl
        · exact ((Prod.mk.injEq _ _ _ _ ▸ heq : _ = _ ∧ _ = _)).2.symm
        · exact absurd (List.mem_map_of_mem Prod.fst htl) hnodup.1
      subst hv
      rw [go_cons_producer_str] at hgo
      cases hgo' : edit_producer_go tl true with
      | error e =>
        rw [hgo'] at hgo
        cases hgo
      | ok r =>
        rw [hgo'] at hgo
        injection hgo with hgo
        injection hgo with ho hw
        subst ho
        exact lookup_cons_self _ _
    · have htl : (producer_key, MetaVal.str s) ∈ tl := by
        rcases List.mem_cons.mp hmem with heq | htl
        · exact absurd ((Prod.mk.injEq _ _ _ _ ▸ heq : _ = _ ∧ _ = _)).1.symm hk
        · exact htl
      cases v with
      | str s' =>
        rw [go_cons_skip_str k s' hk] at hgo
        cases hgo' : edit_producer_go tl rp with
        | error e =>
          rw [hgo'] at hgo
          cases hgo
        | ok r =>
          rw [hgo'] at hgo
          injection hgo with hgo
          injection hgo with ho hw
          subst ho
          rw [lookup_cons_skip k s' hk]
          exact ih s rp r.1 r.2 htl hnodup.2 hgo'
      | bytes s' =>
        rw [go_cons_skip_bytes k s' hk] at hgo
        cases hgo' : edit_producer_go tl rp with
        | error e =>
          rw [hgo'] at hgo
          cases hgo
        | ok r =>
          rw [hgo'] at hgo
          injection hgo with hgo
          injection hgo with ho hw
          subst ho
          rw [lookup_cons_skip k s' hk]
          exact ih s rp r.1 r.2 htl hnodup.2 hgo'
      | other =>
        rw [go_cons_skip_other k hk] at hgo
        cases hgo' : edit_producer_go tl rp with
        | error e =>
          rw [hgo'] at hgo
          cases hgo
        | ok r =>
          rw [hgo'] at hgo
          injection hgo with hgo
          injection hgo with ho hw
          subst ho
          exact ih s rp r.1 r.2 htl hnodup.2 hgo'

/-- With no producer entry at all, the default producer (`our_name`) is
appended at the end, so looking it up succeeds. -/
theorem edit_producer_go_no_producer (l : List (String × MetaVal)) :
    ∀ o w, producer_key ∉ l.map Prod.fst →
      edit_producer_go l false = Except.ok (o, w) →
      o.lookup producer_key = some our_name := by
  induction l with
  | nil =>
    intro o w _ hgo
    injection hgo with hgo
    injection hgo with ho hw
    subst ho
    exact lookup_cons_self _ _
  | cons hd tl ih =>
    obtain ⟨k, v⟩ := hd
    intro o w hnp hgo
    rw [List.map_cons] at hnp
    have hk : ¬k = producer_key := fun h => hnp (h ▸ List.mem_cons_self _ _)
    have hnp' : producer_key ∉ tl.map Prod.fst := fun h => hnp (List.mem_cons_of_mem _ h)
    cases v with
    | str s' =>
      rw [go_cons_skip_str k s' hk] at hgo
      cases hgo' : edit_producer_go tl false with
      | error e =>
        rw [hgo'] at hgo
        cases hgo
      | ok r =>
        rw [hgo'] at hgo
        injection hgo with hgo
        injection hgo with ho hw
        subst ho
        rw [lookup_cons_skip k s' hk]
        exact ih r.1 r.2 hnp' hgo'
    | bytes s' =>
      rw [go_cons_skip_bytes k s' hk] at hgo
      cases hgo' : edit_producer_go tl false with
      | error e =>
        rw [hgo'] at hgo
        cases hgo
      | ok r =>
        rw [hgo'] at hgo
        injection hgo with hgo
        injection hgo with ho hw
        subst ho
        rw [lookup_cons_skip k s' hk]
        exact ih r.1 r.2 hnp' hgo'
    | other =>
      rw [go_cons_skip_other k hk] at hgo
      cases hgo' : edit_producer_go tl false with
      | error e =>
        rw [hgo'] at hgo
        cases hgo
      | ok r =>
        rw [hgo'] at hgo
        injection hgo with hgo
        injection hgo with ho hw
        subst ho
        exact ih r.1 r.2 hnp' hgo'

/-- Every key of the produced metadata is the producer key or comes from an
input entry whose value was representable (not `MetaVal.other`). -/
theorem edit_producer_go_keys (l : List (String × MetaVal)) :
    ∀ rp o w, edit_producer_go l rp = Except.ok (o, w) →
      ∀ k', k' ∈ o.map Prod.fst →
        k' = producer_key ∨ ∃ v, (k', v) ∈ l ∧ v ≠ MetaVal.other := by
  induction l with
  | nil =>
    intro rp o w hgo k' hk'
    injection hgo with hgo
    injection hgo with ho hw
    subst ho
    cases rp with
    | true => cases hk'
    | false =>
      rcases List.mem_cons.mp hk' with h | h
      · exact Or.inl h
      · cases h
  | cons hd tl ih =>
    obtain ⟨k, v⟩ := hd
    intro rp o w hgo k' hk'
    by_cases hk : k = producer_key
    · subst hk
      cases v with
      | str s =>
        rw [go_cons_producer_str] at hgo
        cases hgo' : edit_producer_go tl true with
        | error e =>
          rw [hgo'] at hgo
          cases hgo
        | ok r =>
          rw [hgo'] at hgo
          injection hgo with hgo
          injection hgo with ho hw
          subst ho
          rcases List.mem_cons.mp hk' with h | h
          · exact Or.inl h
          · rcases ih true r.1 r.2 hgo' k' h with h' | ⟨v', hv', hne⟩
            · exact Or.inl h'
            · exact Or.inr ⟨v', List.mem_cons_of_mem _ hv', hne⟩
      | bytes s =>
        rw [go_cons_producer_bytes] at hgo
        cases hgo
      | other =>
        rw [go_cons_producer_other] at hgo
        cases hgo
    · cases v with
      | str s' =>
        rw [go_cons_skip_str k s' hk] at hgo
        cases hgo' : edit_producer_go tl rp with
        | error e =>
          rw [hgo'] at hgo
          cases hgo
        | ok r =>
          rw [hgo'] at hgo
          injection hgo with hgo
          injection hgo with ho hw
          subst ho
          rcases List.mem_cons.mp hk' with h | h
          · exact Or.inr ⟨MetaVal.str s', h ▸ List.mem_cons_self _ _, by simp⟩
          · rcases ih rp r.1 r.2 hgo' k' h with h' | ⟨v', hv', hne⟩
            · exact Or.inl h'
            · exact Or.inr ⟨v', List.mem_cons_of_mem _ hv', hne⟩
      | bytes s' =>
        rw [go_cons_skip_bytes k s' hk] at hgo
        cases hgo' : edit_producer_go tl rp with
        | error e =>
          rw [hgo'] at hgo
          cases hgo
        | ok r =>
          rw [hgo'] at hgo
          injection hgo with hgo
          injection hgo with ho hw
          subst ho
          rcases List.mem_cons.mp hk' with h | h
          · exact Or.inr ⟨MetaVal.bytes s', h ▸ List.mem_cons_self _ _, by simp⟩
          · rcases ih rp r.1 r.2 hgo' k' h with h' | ⟨v', hv', hne⟩
            · exact Or.inl h'
            · exact Or.inr ⟨v', List.mem_cons_of_mem _ hv', hne⟩
      | other =>
        rw [go_cons_skip_other k hk] at hgo
        cases hgo' : edit_producer_go tl rp with
        | error e =>
          rw [hgo'] at hgo
          cases hgo
        | ok r =>
          rw [hgo'] at hgo
          injection hgo with hgo
          injection hgo with ho hw
          subst ho
          rcases ih rp r.1 r.2 hgo' k' hk' with h' | ⟨v', hv', hne⟩
          · exact Or.inl h'
          · exact Or.inr ⟨v', List.mem_cons_of_mem _ hv', hne⟩

/-- Every unrepresentable non-producer entry produces its warning line. -/
theorem edit_producer_go_warn (l : List (String × MetaVal)) :
    ∀ k0, ¬k0 = producer_key → (k0, MetaVal.other) ∈ l →
      ∀ rp o w, edit_producer_go l rp = Except.ok (o, w) → warn_msg k0 ∈ w := by
  induction l with
  | nil =>
    intro k0 _ hmem
    cases hmem
  | cons hd tl ih =>
    obtain ⟨k, v⟩ := hd
    intro k0 hk0 hmem rp o w hgo
    by_cases hk : k = producer_key
    · subst hk
      have hmem' : (k0, MetaVal.other) ∈ tl := by
        rcases List.mem_cons.mp hmem with heq | h
        · exact absurd ((Prod.mk.injEq _ _ _ _ ▸ heq : _ = _ ∧ _ = _)).1 hk0
        · exact h
      cases v with
      | str s =>
        rw [go_cons_producer_str] at hgo
        cases hgo' : edit_producer_go tl true with
        | error e =>
          rw [hgo'] at hgo
          cases hgo
        | ok r =>
          rw [hgo'] at hgo
          injection hgo with hgo
          injection hgo with ho hw
          subst hw
          exact ih k0 hk0 hmem' true r.1 r.2 hgo'
      | bytes s =>
        rw [go_cons_producer_bytes] at hgo
        cases hgo
      | other =>
        rw [go_cons_producer_other] at hgo
        cases hgo
    · cases v with
      | str s' =>
        rw [go_cons_skip_str k s' hk] at hgo
        cases hgo' : edit_producer_go tl rp with
        | error e =>
          rw [hgo'] at hgo
          cases hgo
        | ok r =>
          rw [hgo'] at hgo
          injection hgo with hgo
          injection hgo with ho hw
          subst hw
          have hmem' : (k0, MetaVal.other) ∈ tl := by
            rcases List.mem_cons.mp hmem with heq | h
            · cases ((Prod.mk.injEq _ _ _ _ ▸ heq : _ = _ ∧ _ = _)).2
            · exact h
          exact ih k0 hk0 hmem' rp r.1 r.2 hgo'
      | bytes s' =>
        rw [go_cons_skip_bytes k s' hk] at hgo
        cases hgo' : edit_producer_go tl rp with
        | error e =>
          rw [hgo'] at hgo
          cases hgo
        | ok r =>
          rw [hgo'] at hgo
          injection hgo with hgo
          injection hgo with ho hw
          subst hw
          have hmem' : (k0, MetaVal.other) ∈ tl := by
            rcases List.mem_cons.mp hmem with heq | h
            · cases ((Prod.mk.injEq _ _ _ _ ▸ heq : _ = _ ∧ _ = _)).2
            · exact h
          exact ih k0 hk0 hmem' rp r.1 r.2 hgo'
      | other =>
        rw [go_cons_skip_other k hk] at hgo
        cases hgo' : edit_producer_go tl rp with
        | error e =>
          rw [hgo'] at hgo
          cases hgo
        | ok r =>
          rw [hgo'] at hgo
          injection hgo with hgo
          injection hgo with ho hw
          subst hw
          rcases List.mem_cons.mp hmem with heq | h
          · have : k0 = k := ((Prod.mk.injEq _ _ _ _ ▸ heq : _ = _ ∧ _ = _)).1
            subst this
            exact List.mem_cons_self _ _
          · exact List.mem_cons_of_mem _ (ih k0 hk0 h rp r.1 r.2 hgo')

/-- C9 counterexample: a producer entry whose value is not a text string (for
example an array property). The concatenation `value + "; " + our_name` is
executed before and outside the `try` block, so the raised `TypeError` is
uncaught: finalization fails instead of producing a document whose producer
is the source producer with the signature appended. -/
theorem edit_producer_nonstring_producer_fatal :
    edit_producer (some [(producer_key, MetaVal.other)]) = Except.error () := rfl

/-- C9 amended: provided any producer entry holds a text-string value, the
finalization succeeds and: a present producer value gains `"; "` and the
tool signature appended; an absent producer is set to the tool signature
alone; every other entry with an unrepresentable value is dropped from the
output and yields a warning, not a failure. (A producer entry with a
non-string value instead raises an uncaught `TypeError`.) -/
theorem edit_producer_policy (md : List (String × MetaVal))
    (hnodup : (md.map Prod.fst).Nodup) :
    (∀ s, (producer_key, MetaVal.str s) ∈ md →
      ∀ o w, edit_producer (some md) = Except.ok (o, w) →
        o.lookup producer_key = some (s ++ "; " ++ our_name)) ∧
    (producer_key ∉ md.map Prod.fst →
      ∀ o w, edit_producer (some md) = Except.ok (o, w) →
        o.lookup producer_key = some our_name) ∧
    (∀ k, ¬k = producer_key → (k, MetaVal.other) ∈ md →
      ∀ o w, edit_producer (some md) = Except.ok (o, w) →
        warn_msg k ∈ w ∧ k ∉ o.map Prod.fst) ∧
    ((∀ v, (producer_key, v) ∈ md → ∃ s, v = MetaVal.str s) →
      ∃ r, edit_producer (some md) = Except.ok r) ∧
    edit_producer none = Except.ok ([(producer_key, our_name)], []) := by
  refine ⟨?_, ?_, ?_, ?_, rfl⟩
  · intro s hmem o w hgo
    exact edit_producer_go_producer md s false o w hmem hnodup hgo
  · intro hnp o w hgo
    exact edit_producer_go_no_producer md o w hnp hgo
  · intro k hk hmem o w hgo
    refine ⟨edit_producer_go_warn md k hk hmem false o w hgo, ?_⟩
    intro hkin
    rcases edit_producer_go_keys md false o w hgo k hkin with h' | ⟨v', hv', hne⟩
    · exact hk h'
    · have heq : (k, v') = (k, MetaVal.other) :=
        List.inj_on_of_nodup_map hnodup hv' hmem rfl
      exact hne (((Prod.mk.injEq _ _ _ _ ▸ heq : _ = _ ∧ _ = _)).2)
  · intro hall
    exact edit_producer_go_ok md hall false

/-- Witness for the amended C9, at the metadata
`[("/Title", str), ("/Producer", str), ("/Weird", other)]`. -/
theorem edit_producer_policy_witness :
    ((∀ s, (producer_key, MetaVal.str s) ∈
        [("/Title", MetaVal.str "T"), (producer_key, MetaVal.str "GS"),
          ("/Weird", MetaVal.other)] →
      ∀ o w, edit_producer (some [("/Title", MetaVal.str "T"),
          (producer_key, MetaVal.str "GS"), ("/Weird", MetaVal.other)]) =
          Except.ok (o, w) →
        o.lookup producer_key = some (s ++ "; " ++ our_name)) ∧
    (producer_key ∉ ([("/Title", MetaVal.str "T"), (producer_key, MetaVal.str "GS"),
        ("/Weird", MetaVal.other)] : List (String × MetaVal)).map Prod.fst →
      ∀ o w, edit_producer (some [("/Title", MetaVal.str "T"),
          (producer_key, MetaVal.str "GS"), ("/Weird", MetaVal.other)]) =
          Except.ok (o, w) →
        o.lookup producer_key = some our_name) ∧
    (∀ k, ¬k = producer_key → (k, MetaVal.other) ∈
        [("/Title", MetaVal.str "T"), (producer_key, MetaVal.str "GS"),
          ("/Weird", MetaVal.other)] →
      ∀ o w, edit_producer (some [("/Title", MetaVal.str "T"),
          (producer_key, MetaVal.str "GS"), ("/Weird", MetaVal.other)]) =
          Except.ok (o, w) →
        warn_msg k ∈ w ∧ k ∉ o.map Prod.fst) ∧
    ((∀ v, (producer_key, v) ∈
        [("/Title", MetaVal.str "T"), (producer_key, MetaVal.str "GS"),
          ("/Weird", MetaVal.other)] → ∃ s, v = MetaVal.str s) →
      ∃ r, edit_producer (some [("/Title", MetaVal.str "T"),
          (producer_key, MetaVal.str "GS"), ("/Weird", MetaVal.other)]) = Except.ok r) ∧
    edit_producer none = Except.ok ([(producer_key, our_name)], [])) ∧
    edit_producer (some [("/Title", MetaVal.str "T"), (producer_key, MetaVal.str "GS"),
        ("/Weird", MetaVal.other)]) =
      Except.ok ([("/Title", "T"), (producer_key, "GS; " ++ our_name)],
        [warn_msg "/Weird"]) :=
  ⟨edit_producer_policy
      [("/Title", MetaVal.str "T"), (producer_key, MetaVal.str "GS"),
        ("/Weird", MetaVal.other)] (by decide),
    rfl⟩

end PdfOcr
